import Mathlib

/-!
Verification of the snap state module: the output normalizer
`_cleanup_stdout`, the presence prober `_snapd_is_installed`, and the two
state operations `purged` and `assert_all_removed`, embedded at the level
of character lists and explicit collaborator functions.
-/

/-- Spinner glyphs stripped from the right end of each line (the
character class of the first `rstrip` call: slash, dash, backslash, bar). -/
def isSpinner (c : Char) : Bool :=
  c = '/' || c = '-' || c = '\\' || c = '|'

/-- Python `str` whitespace, as stripped by `l.rstrip()`. -/
def pyIsSpace (c : Char) : Bool :=
  c = ' ' || c = '\t' || c = '\n' || c = '\x0b' || c = '\x0c' || c = '\r' ||
  c = '\x1c' || c = '\x1d' || c = '\x1e' || c = '\x1f' ||
  c = '\x85' || c = '\xa0' || c = ' ' ||
  (' ' ≤ c && c ≤ ' ') ||
  c = ' ' || c = ' ' || c = ' ' || c = ' ' || c = '　'

/-- Line boundaries recognised by Python `str.splitlines` (besides the
combined `"\r\n"`, which is handled separately). -/
def isLineBreak (c : Char) : Bool :=
  c = '\n' || c = '\r' || c = '\x0b' || c = '\x0c' ||
  c = '\x1c' || c = '\x1d' || c = '\x1e' || c = '\x85' ||
  c = ' ' || c = ' '

/-- Collapse the two-character boundary `"\r\n"` into a single `'\n'`,
so that `str.splitlines` can be modelled one character at a time. -/
def normCRLF : List Char → List Char
  | [] => []
  | [c] => [c]
  | c :: d :: rest =>
    if c = '\r' ∧ d = '\n' then '\n' :: normCRLF rest
    else c :: normCRLF (d :: rest)

/-- Worker for `str.splitlines`: a break character terminates the current
line (which is emitted even when empty); a non-empty final line without a
terminator is emitted as well. -/
def splitLinesGo : List Char → List Char → List (List Char)
  | [], acc => if acc = [] then [] else [acc.reverse]
  | c :: rest, acc =>
    if isLineBreak c then acc.reverse :: splitLinesGo rest []
    else splitLinesGo rest (c :: acc)

/-- Python `str.splitlines` on the character list of a string. -/
def pySplitLines (cs : List Char) : List (List Char) :=
  splitLinesGo (normCRLF cs) []

/-- Python `str.rstrip` with an arbitrary character class: drop from the
right end while the class matches. -/
def pyRstripSet (p : Char → Bool) (l : List Char) : List Char :=
  (l.reverse.dropWhile p).reverse

/-- Collapse runs of consecutive equal elements to a single element,
mirroring `[l for l, _ in groupby(lines)]`. -/
def dedupConsec {α : Type} [DecidableEq α] : List α → List α
  | [] => []
  | [a] => [a]
  | a :: b :: rest =>
    if a = b then dedupConsec (b :: rest) else a :: dedupConsec (b :: rest)

/-- Join lines with a single `'\n'` separator, mirroring `'\n'.join(lines)`. -/
def joinNl : List (List Char) → List Char
  | [] => []
  | [l] => l
  | l :: l' :: ls => l ++ '\n' :: joinNl (l' :: ls)

/-- The line pipeline of `_cleanup_stdout`: split into lines, strip
trailing spinner glyphs, strip remaining trailing whitespace, and collapse
consecutive duplicate lines. -/
def cleanupLinesCh (cs : List Char) : List (List Char) :=
  dedupConsec (((pySplitLines cs).map (pyRstripSet isSpinner)).map
    (pyRstripSet pyIsSpace))

/-- `_cleanup_stdout`: normalize the captured output of `snap remove`. -/
def _cleanup_stdout (raw : String) : String :=
  String.mk (joinNl (cleanupLinesCh raw.data))

/-- Split a character list on `'\n'` only (Python `s.split('\n')`); used to
state what "the input, per line" means for the normalizer claims. -/
def splitOnNl : List Char → List (List Char)
  | [] => [[]]
  | c :: rest =>
    if c = '\n' then [] :: splitOnNl rest
    else
      match splitOnNl rest with
      | [] => [[c]]
      | l :: ls => (c :: l) :: ls

/-- The spec's reading of "the input unchanged except that trailing
whitespace is trimmed from each line". -/
def trimTrailingPerLine (s : String) : String :=
  String.mk (joinNl ((splitOnNl s.data).map (pyRstripSet pyIsSpace)))

/-- Python `'\n'.join` on strings, used for the comment fields. -/
def strJoinNl : List String → String
  | [] => ""
  | [a] => a
  | a :: b :: rest => a ++ "\n" ++ strJoinNl (b :: rest)

/-- Result of the command-execution collaborator `cmd.run_all`. -/
structure CmdOutput where
  pid : Nat
  retcode : Int
  stdout : String
  stderr : String

/-- The outcome record returned by both state operations. `changes` is the
association list of the Python dict, in insertion order. -/
structure Ret where
  name : String
  result : Option Bool
  changes : List (String × String)
  comment : String

/-- Modelled from the spec: the package-query collaborator
`pkg.info_installed` is not part of this repository; per the spec it is a
boolean query whose hard-failure mode is suppressed when `failhard` is
false (a failed lookup is reported as a value, never raised). -/
structure PkgInfoQuery where
  query : String → Bool → Except String Bool
  suppressed_no_raise : ∀ n e, query n false ≠ Except.error e

/-- `_snapd_is_installed`: ask the package-query collaborator whether
`snapd` is installed, with `failhard=False`. -/
def _snapd_is_installed (c : PkgInfoQuery) : Except String Bool :=
  c.query "snapd" false

/-- `purged`: ensure the named snap is absent. The probe outcome, the test
flag and the two command collaborators are passed explicitly; the second
component of the result is the list of external commands invoked. -/
def purged (name : String) (snapd_installed : Bool) (test : Bool)
    (cmd_run_all : String → CmdOutput) (cmd_retcode : String → Bool → Int) :
    Ret × List String :=
  if !snapd_installed then
    ({ name, result := some true, changes := [],
       comment := "Cannot purge snap \"" ++ name ++
         "\" because snapd is not installed." }, [])
  else if test then
    ({ name, result := none, changes := [],
       comment := "Test mode is not supported." }, [])
  else
    let cmd_output := cmd_run_all ("snap remove --purge " ++ name)
    if cmd_output.stderr = "snap \"" ++ name ++ "\" is not installed" then
      ({ name, result := some true, changes := [],
         comment := "Snap \"" ++ name ++ "\" is already removed." },
       ["snap remove --purge " ++ name])
    else
      let stdout := _cleanup_stdout cmd_output.stdout
      let stderr := cmd_output.stderr
      if cmd_output.retcode ≠ 0 then
        ({ name, result := some false,
           changes := [("stdout", stdout), ("stderr", stderr)],
           comment := "Non-zero return code when purging snap \"" ++ name ++
             "\"." }, ["snap remove --purge " ++ name])
      else
        let is_still_installed := cmd_retcode ("snap list " ++ name) true = 0
        if is_still_installed then
          ({ name, result := some false,
             changes := [("stdout", stdout), ("stderr", stderr)],
             comment := "Purging snap \"" ++ name ++ "\" was unsuccessful." },
           ["snap remove --purge " ++ name, "snap list " ++ name])
        else
          ({ name, result := some true,
             changes := [("old", "installed"), ("new", "removed"),
               ("stdout", stdout), ("stderr", stderr)],
             comment := "Snap \"" ++ name ++ "\" was successfully purged." },
           ["snap remove --purge " ++ name, "snap list " ++ name])

/-- `assert_all_removed`: succeed exactly when no snaps are installed,
without mutating anything. Same conventions as `purged`. -/
def assert_all_removed (name : String) (snapd_installed : Bool)
    (cmd_run_all : String → CmdOutput) : Ret × List String :=
  if !snapd_installed then
    ({ name, result := some true, changes := [],
       comment := "Cannot check for installed snaps because snapd is not installed. Assuming that all snaps are removed." },
     [])
  else
    let cmd_output := cmd_run_all "snap list"
    if cmd_output.stdout ≠ "" then
      ({ name, result := some false, changes := [],
         comment := strJoinNl
           ["It seems like at least one snap is still installed.",
            "Output:", cmd_output.stdout, "Errors:",
            if cmd_output.stderr = "" then "(no errors)"
            else cmd_output.stderr] }, ["snap list"])
    else if cmd_output.stderr.startsWith "No snaps are installed" then
      ({ name, result := some true, changes := [],
         comment := "No snaps are installed." }, ["snap list"])
    else
      ({ name, result := some false, changes := [],
         comment := strJoinNl
           ["Listing all installed snaps failed due to error.",
            cmd_output.stderr] }, ["snap list"])

example : _cleanup_stdout "\rRemoving snap abc     /\rRemoving snap abc     -" = "\nRemoving snap abc" := by decide

example : _cleanup_stdout "a/ " = "a/" := by decide

example : _cleanup_stdout "a/" = "a" := by decide

example : _cleanup_stdout "a\na\nb\na" = "a\nb\na" := by decide

lemma strAppend_ne_empty (a b : String) (h : a ≠ "") : a ++ b ≠ "" := by
  cases a with
  | mk l1 =>
    cases b with
    | mk l2 =>
      intro hc
      apply h
      have hd : l1 ++ l2 = ([] : List Char) := congrArg String.data hc
      have h1 : l1 = [] := by
        cases l1 with
        | nil => rfl
        | cons x xs => simp at hd
      rw [h1]

/-- C5: the presence prober queries the collaborator for `snapd` with the
hard-failure mode suppressed; by the collaborator's contract the call
always returns a boolean value (never an error), and when the lookup
reports the subsystem absent the prober yields that `false`. -/
theorem snapd_is_installed_ok (c : PkgInfoQuery) :
    (∃ b : Bool, _snapd_is_installed c = Except.ok b) ∧
    (c.query "snapd" false = Except.ok false →
      _snapd_is_installed c = Except.ok false) := by
  refine ⟨?_, fun h => h⟩
  cases hq : c.query "snapd" false with
  | ok b => exact ⟨b, hq⟩
  | error e => exact absurd hq (c.suppressed_no_raise _ e)

theorem snapd_is_installed_ok_witness :
    (∃ b : Bool,
      _snapd_is_installed
        ⟨fun _ _ => Except.ok false, fun _ _ h => Except.noConfusion h⟩ =
        Except.ok b) ∧
    ((fun (_ : String) (_ : Bool) => Except.ok (ε := String) false) "snapd"
        false = Except.ok false →
      _snapd_is_installed
        ⟨fun _ _ => Except.ok false, fun _ _ h => Except.noConfusion h⟩ =
        Except.ok false) :=
  snapd_is_installed_ok
    ⟨fun _ _ => Except.ok false, fun _ _ h => Except.noConfusion h⟩

/-- C2 counterexample: on the spec's example input the normalizer does not
return the single line claimed by the spec. -/
theorem cleanup_example_ne_spec :
    _cleanup_stdout "\rRemoving snap abc     /\rRemoving snap abc     -" ≠
      "Removing snap abc" := by
  decide

/-- C2 amended: on the example input the normalizer returns a leading
empty line (the text before the first carriage return) followed by the
single deduplicated, despun line. -/
theorem cleanup_example_value :
    _cleanup_stdout "\rRemoving snap abc     /\rRemoving snap abc     -" =
      "\nRemoving snap abc" := by
  decide

/-- C1 counterexample: the normalizer is not idempotent. On an input line
whose spinner glyph is followed by trailing whitespace, the first pass
strips only the whitespace, re-exposing the spinner; a second pass strips
it too, so normalizing the output changes it again. -/
theorem cleanup_not_idempotent :
    _cleanup_stdout (_cleanup_stdout "a/ ") ≠ _cleanup_stdout "a/ " := by
  decide

/-- C6 counterexample: an input with zero carriage returns and zero
consecutive duplicate lines on which the normalizer does not merely trim
trailing whitespace — it also strips the trailing spinner glyph. -/
theorem cleanup_trim_counterexample :
    ('\r' ∉ "x/".data) ∧
    dedupConsec (splitOnNl "x/".data) = splitOnNl "x/".data ∧
    _cleanup_stdout "x/" ≠ trimTrailingPerLine "x/" := by
  refine ⟨by decide, by decide, by decide⟩

/-- C3: with snapd present and test mode off, when the removal command's
stderr is exactly the already-removed pattern the purge returns
`result=true` with empty changes, whatever the exit code is — the stderr
check precedes the exit-code check. -/
theorem purged_already_removed (name : String) (ra : String → CmdOutput)
    (rc : String → Bool → Int)
    (h : (ra ("snap remove --purge " ++ name)).stderr =
      "snap \"" ++ name ++ "\" is not installed") :
    (purged name true false ra rc).1.result = some true ∧
    (purged name true false ra rc).1.changes = [] := by
  simp [purged, h]

theorem purged_already_removed_witness :
    (purged "foo" true false
        (fun _ => ⟨42, 1, "out", "snap \"foo\" is not installed"⟩)
        (fun _ _ => 0)).1.result = some true ∧
    (purged "foo" true false
        (fun _ => ⟨42, 1, "out", "snap \"foo\" is not installed"⟩)
        (fun _ _ => 0)).1.changes = [] :=
  purged_already_removed "foo"
    (fun _ => ⟨42, 1, "out", "snap \"foo\" is not installed"⟩)
    (fun _ _ => 0) rfl

/-- C4: with snapd present, test mode off, a zero exit code, stderr not
the already-removed pattern, and the verification query reporting the
snap absent (non-zero exit), the purge returns `result=true` and changes
recording the old/new states, the normalized stdout and the raw stderr. -/
theorem purged_success (name : String) (ra : String → CmdOutput)
    (rc : String → Bool → Int)
    (h1 : (ra ("snap remove --purge " ++ name)).stderr ≠
      "snap \"" ++ name ++ "\" is not installed")
    (h2 : (ra ("snap remove --purge " ++ name)).retcode = 0)
    (h3 : rc ("snap list " ++ name) true ≠ 0) :
    (purged name true false ra rc).1.result = some true ∧
    (purged name true false ra rc).1.changes =
      [("old", "installed"), ("new", "removed"),
       ("stdout", _cleanup_stdout (ra ("snap remove --purge " ++ name)).stdout),
       ("stderr", (ra ("snap remove --purge " ++ name)).stderr)] := by
  simp [purged, h1, h2, h3]

theorem purged_success_witness :
    (purged "foo" true false (fun _ => ⟨42, 0, "gone", ""⟩)
        (fun _ _ => 1)).1.result = some true ∧
    (purged "foo" true false (fun _ => ⟨42, 0, "gone", ""⟩)
        (fun _ _ => 1)).1.changes =
      [("old", "installed"), ("new", "removed"),
       ("stdout", _cleanup_stdout "gone"), ("stderr", "")] :=
  purged_success "foo" (fun _ => ⟨42, 0, "gone", ""⟩) (fun _ _ => 1)
    (by decide) rfl (by decide)

/-- C7: when the presence probe reports snapd absent, both operations
return `result=true` with empty changes and run no external command. -/
theorem purged_assert_snapd_absent (name : String) (t : Bool)
    (ra : String → CmdOutput) (rc : String → Bool → Int) (name2 : String)
    (ra2 : String → CmdOutput) :
    (purged name false t ra rc).1.result = some true ∧
    (purged name false t ra rc).1.changes = [] ∧
    (purged name false t ra rc).2 = [] ∧
    (assert_all_removed name2 false ra2).1.result = some true ∧
    (assert_all_removed name2 false ra2).1.changes = [] ∧
    (assert_all_removed name2 false ra2).2 = [] :=
  ⟨rfl, rfl, rfl, rfl, rfl, rfl⟩

/-- C9: the assertion operation never reports changes: in every branch,
for every probe outcome and every list-query output, `changes` is empty. -/
theorem assert_changes_empty (name : String) (si : Bool)
    (ra : String → CmdOutput) :
    (assert_all_removed name si ra).1.changes = [] := by
  simp only [assert_all_removed]
  split_ifs <;> rfl

/-- C10: with snapd present, the purge result is indeterminate (`none`)
exactly when the test flag is set; every other reachable branch returns a
strict boolean. -/
theorem purged_result_none_iff (name : String) (t : Bool)
    (ra : String → CmdOutput) (rc : String → Bool → Int) :
    ((purged name true t ra rc).1.result = none) ↔ t = true := by
  cases t with
  | true => simp [purged]
  | false =>
    simp only [purged, Bool.not_true, Bool.false_eq_true, if_false]
    split_ifs <;> simp

/-- C8: every terminal branch of both operations sets a non-empty
comment. -/
theorem comment_nonempty (name : String) (si t : Bool)
    (ra : String → CmdOutput) (rc : String → Bool → Int) (name2 : String)
    (si2 : Bool) (ra2 : String → CmdOutput) :
    (purged name si t ra rc).1.comment ≠ "" ∧
    (assert_all_removed name2 si2 ra2).1.comment ≠ "" := by
  constructor
  · simp only [purged]
    split_ifs <;> dsimp only <;>
      first
        | decide
        | (apply strAppend_ne_empty <;>
            first
              | decide
              | (apply strAppend_ne_empty <;> decide))
  · simp only [assert_all_removed, strJoinNl]
    split_ifs <;> dsimp only <;>
      first
        | decide
        | (apply strAppend_ne_empty <;>
            first
              | decide
              | (apply strAppend_ne_empty <;> decide))

lemma pyRstripSet_eq_rdropWhile (p : Char → Bool) (l : List Char) :
    pyRstripSet p l = List.rdropWhile p l := rfl

lemma rstrip_idem (p : Char → Bool) (l : List Char) :
    pyRstripSet p (pyRstripSet p l) = pyRstripSet p l := by
  simp [pyRstripSet_eq_rdropWhile, List.rdropWhile_idempotent]

lemma mem_rstrip (p : Char → Bool) {c : Char} {l : List Char}
    (h : c ∈ pyRstripSet p l) : c ∈ l := by
  rw [pyRstripSet_eq_rdropWhile] at h
  exact (List.rdropWhile_prefix p l).subset h

lemma spinner_not_space {c : Char} (h : isSpinner c = true) :
    pyIsSpace c = false := by
  simp only [isSpinner, Bool.or_eq_true, decide_eq_true_eq] at h
  rcases h with ((h | h) | h) | h <;> subst h <;> decide

lemma dropWhile_space_spin (r : List Char)
    (h : List.dropWhile isSpinner (List.dropWhile pyIsSpace r) =
      List.dropWhile pyIsSpace r) :
    List.dropWhile pyIsSpace (List.dropWhile isSpinner r) =
      List.dropWhile pyIsSpace r := by
  cases r with
  | nil => simp
  | cons c r' =>
    by_cases hs : isSpinner c
    · have hns : pyIsSpace c = false := spinner_not_space hs
      rw [List.dropWhile_cons, if_neg (by simp [hns])] at h
      rw [List.dropWhile_cons, if_pos hs] at h
      have hle := (List.dropWhile_suffix (l := r') isSpinner).sublist.length_le
      rw [h] at hle
      simp at hle
    · rw [List.dropWhile_cons, if_neg hs]

lemma rstrip_swap (l : List Char)
    (h : pyRstripSet isSpinner (pyRstripSet pyIsSpace l) =
      pyRstripSet pyIsSpace l) :
    pyRstripSet pyIsSpace (pyRstripSet isSpinner l) =
      pyRstripSet pyIsSpace l := by
  unfold pyRstripSet at h ⊢
  rw [List.reverse_reverse] at h ⊢
  have h' : List.dropWhile isSpinner (List.dropWhile pyIsSpace l.reverse) =
      List.dropWhile pyIsSpace l.reverse := by
    have := congrArg List.reverse h
    simpa using this
  exact congrArg List.reverse (dropWhile_space_spin l.reverse h')

lemma dedup_head {α : Type} [DecidableEq α] (b : α) (r : List α) :
    (dedupConsec (b :: r)).head? = some b := by
  induction r generalizing b with
  | nil => rfl
  | cons c r' ih =>
    simp only [dedupConsec]
    split_ifs with h
    · rw [h]; exact ih c
    · rfl

lemma chain_dedup {α : Type} [DecidableEq α] (L : List α) :
    List.Chain' (· ≠ ·) (dedupConsec L) := by
  induction L with
  | nil => simp [dedupConsec]
  | cons a t ih =>
    cases t with
    | nil => simp [dedupConsec]
    | cons b r =>
      simp only [dedupConsec]
      split_ifs with hab
      · exact ih
      · rw [List.chain'_cons']
        refine ⟨fun y hy => ?_, ih⟩
        rw [dedup_head b r] at hy
        simp only [Option.mem_def, Option.some.injEq] at hy
        rw [← hy]
        exact hab

lemma dedup_of_chain {α : Type} [DecidableEq α] (L : List α)
    (h : List.Chain' (· ≠ ·) L) : dedupConsec L = L := by
  induction L with
  | nil => rfl
  | cons a t ih =>
    cases t with
    | nil => rfl
    | cons b r =>
      rw [List.chain'_cons] at h
      simp only [dedupConsec, if_neg h.1]
      rw [ih h.2]

lemma dedup_idem {α : Type} [DecidableEq α] (L : List α) :
    dedupConsec (dedupConsec L) = dedupConsec L :=
  dedup_of_chain _ (chain_dedup L)

lemma mem_dedup {α : Type} [DecidableEq α] {x : α} {L : List α}
    (h : x ∈ dedupConsec L) : x ∈ L := by
  induction L with
  | nil => simpa [dedupConsec] using h
  | cons a t ih =>
    cases t with
    | nil => simpa [dedupConsec] using h
    | cons b r =>
      simp only [dedupConsec] at h
      split_ifs at h with hab
      · exact List.mem_cons_of_mem a (ih h)
      · rcases List.mem_cons.mp h with h' | h'
        · exact h' ▸ List.mem_cons_self a _
        · exact List.mem_cons_of_mem a (ih h')

lemma splitLinesGo_break_free (cs : List Char) :
    ∀ acc, (∀ c ∈ cs, isLineBreak c = false) →
    splitLinesGo cs acc =
      if acc.reverse ++ cs = [] then [] else [acc.reverse ++ cs] := by
  induction cs with
  | nil =>
    intro acc _
    simp only [splitLinesGo, List.append_nil]
    by_cases h : acc = []
    · simp [h]
    · rw [if_neg h, if_neg (by simpa using h)]
  | cons c cs' ih =>
    intro acc h
    have hc : isLineBreak c = false := h c (List.mem_cons_self c cs')
    simp only [splitLinesGo, hc, Bool.false_eq_true, if_false]
    rw [ih (c :: acc) (fun d hd => h d (List.mem_cons_of_mem c hd))]
    simp

lemma splitLinesGo_append (x : List Char)
    (hx : ∀ c ∈ x, isLineBreak c = false) :
    ∀ acc rest, splitLinesGo (x ++ '\n' :: rest) acc =
      (acc.reverse ++ x) :: splitLinesGo rest [] := by
  induction x with
  | nil =>
    intro acc rest
    simp [splitLinesGo, isLineBreak]
  | cons c x' ih =>
    intro acc rest
    have hc : isLineBreak c = false := hx c (List.mem_cons_self c x')
    simp only [List.cons_append, splitLinesGo, hc, Bool.false_eq_true,
      if_false, List.append_eq]
    rw [ih (fun d hd => hx d (List.mem_cons_of_mem c hd)) (c :: acc) rest]
    simp

lemma joinNl_cons (l : List Char) (L : List (List Char)) (hL : L ≠ []) :
    joinNl (l :: L) = l ++ '\n' :: joinNl L := by
  cases L with
  | nil => exact absurd rfl hL
  | cons l' ls => rfl

lemma mem_joinNl {c : Char} :
    ∀ {L : List (List Char)}, c ∈ joinNl L → c = '\n' ∨ ∃ l ∈ L, c ∈ l := by
  intro L
  induction L with
  | nil => intro h; simp [joinNl] at h
  | cons l t ih =>
    cases t with
    | nil =>
      intro h
      simp only [joinNl] at h
      exact Or.inr ⟨l, List.mem_cons_self l [], h⟩
    | cons l' ls =>
      intro h
      rw [joinNl_cons l (l' :: ls) (by simp)] at h
      rcases List.mem_append.mp h with h' | h'
      · exact Or.inr ⟨l, List.mem_cons_self l _, h'⟩
      · rcases List.mem_cons.mp h' with h'' | h''
        · exact Or.inl h''
        · rcases ih h'' with h3 | ⟨l3, hl3, hc3⟩
          · exact Or.inl h3
          · exact Or.inr ⟨l3, List.mem_cons_of_mem l hl3, hc3⟩

lemma splitLinesGo_joinNl (L : List (List Char))
    (hbf : ∀ l ∈ L, ∀ c ∈ l, isLineBreak c = false)
    (hlast : L.getLast? ≠ some []) : splitLinesGo (joinNl L) [] = L := by
  induction L with
  | nil => rfl
  | cons l t ih =>
    cases t with
    | nil =>
      have hne : l ≠ [] := by
        intro h
        exact hlast (by simp [h])
      simp only [joinNl]
      rw [splitLinesGo_break_free l [] (hbf l (List.mem_cons_self l []))]
      simp [hne]
    | cons l' ls =>
      rw [joinNl_cons l (l' :: ls) (by simp)]
      rw [splitLinesGo_append l (hbf l (List.mem_cons_self l _)) [] _]
      rw [ih (fun m hm => hbf m (List.mem_cons_of_mem l hm))
        (by rwa [List.getLast?_cons_cons] at hlast)]
      simp

lemma normCRLF_of_no_cr (cs : List Char) (h : '\r' ∉ cs) : normCRLF cs = cs := by
  induction cs with
  | nil => rfl
  | cons c cs' ih =>
    have hc : c ≠ '\r' := fun he => h (he ▸ List.mem_cons_self c cs')
    have h' : '\r' ∉ cs' := fun hm => h (List.mem_cons_of_mem c hm)
    cases cs' with
    | nil => rfl
    | cons d rest =>
      simp only [normCRLF]
      rw [if_neg (show ¬(c = '\r' ∧ d = '\n') from fun hp => hc hp.1),
        ih h']

lemma no_cr_joinNl (L : List (List Char))
    (hbf : ∀ l ∈ L, ∀ c ∈ l, isLineBreak c = false) : '\r' ∉ joinNl L := by
  intro hmem
  rcases mem_joinNl hmem with h | ⟨l, hl, hc⟩
  · exact absurd h (by decide)
  · have := hbf l hl '\r' hc
    simp [isLineBreak] at this

lemma pySplitLines_joinNl (L : List (List Char))
    (hbf : ∀ l ∈ L, ∀ c ∈ l, isLineBreak c = false)
    (hlast : L.getLast? ≠ some []) : pySplitLines (joinNl L) = L := by
  unfold pySplitLines
  rw [normCRLF_of_no_cr _ (no_cr_joinNl L hbf)]
  exact splitLinesGo_joinNl L hbf hlast

lemma splitLinesGo_lines_break_free (cs : List Char) :
    ∀ acc, (∀ c ∈ acc, isLineBreak c = false) →
    ∀ l ∈ splitLinesGo cs acc, ∀ c ∈ l, isLineBreak c = false := by
  induction cs with
  | nil =>
    intro acc hacc l hl c hc
    simp only [splitLinesGo] at hl
    split_ifs at hl with h
    · simp at hl
    · rw [List.mem_singleton] at hl
      subst hl
      exact hacc c (List.mem_reverse.mp hc)
  | cons d cs' ih =>
    intro acc hacc l hl c hc
    by_cases hb : isLineBreak d
    · rw [splitLinesGo, if_pos hb] at hl
      rcases List.mem_cons.mp hl with h' | h'
      · subst h'
        exact hacc c (List.mem_reverse.mp hc)
      · exact ih [] (by simp) l h' c hc
    · rw [splitLinesGo, if_neg hb] at hl
      refine ih (d :: acc) ?_ l hl c hc
      intro e he
      rcases List.mem_cons.mp he with h' | h'
      · subst h'
        simpa using hb
      · exact hacc e h'

lemma pySplitLines_break_free (cs : List Char) :
    ∀ l ∈ pySplitLines cs, ∀ c ∈ l, isLineBreak c = false :=
  splitLinesGo_lines_break_free (normCRLF cs) [] (by simp)

lemma cleanupLines_break_free (cs : List Char) :
    ∀ l ∈ cleanupLinesCh cs, ∀ c ∈ l, isLineBreak c = false := by
  intro l hl c hc
  have hl1 := mem_dedup hl
  rcases List.mem_map.mp hl1 with ⟨l2, hl2, he2⟩
  rcases List.mem_map.mp hl2 with ⟨l3, hl3, he3⟩
  subst he2
  subst he3
  exact pySplitLines_break_free cs l3 hl3 c
    (mem_rstrip isSpinner (mem_rstrip pyIsSpace hc))

lemma cleanupLines_ws_fixed (cs : List Char) :
    ∀ l ∈ cleanupLinesCh cs, pyRstripSet pyIsSpace l = l := by
  intro l hl
  have hl1 := mem_dedup hl
  rcases List.mem_map.mp hl1 with ⟨l2, _, he2⟩
  subst he2
  exact rstrip_idem pyIsSpace l2

lemma cleanupLines_dedup_fixed (cs : List Char) :
    dedupConsec (cleanupLinesCh cs) = cleanupLinesCh cs :=
  dedup_idem _

lemma cleanup_of_fixed (M : List (List Char))
    (hbf : ∀ l ∈ M, ∀ c ∈ l, isLineBreak c = false)
    (hsp : ∀ l ∈ M, pyRstripSet isSpinner l = l)
    (hws : ∀ l ∈ M, pyRstripSet pyIsSpace l = l)
    (hdd : dedupConsec M = M)
    (hlast : M.getLast? ≠ some []) :
    cleanupLinesCh (joinNl M) = M := by
  unfold cleanupLinesCh
  rw [pySplitLines_joinNl M hbf hlast]
  have h1 : M.map (pyRstripSet isSpinner) = M := by
    conv_rhs => rw [← List.map_id M]
    exact List.map_congr_left hsp
  have h2 : M.map (pyRstripSet pyIsSpace) = M := by
    conv_rhs => rw [← List.map_id M]
    exact List.map_congr_left hws
  rw [h1, h2, hdd]

/-- C1 corrected: the normalizer is idempotent on every input whose
normalized output has no line ending in a spinner glyph and does not end
in a trailing empty line (equivalently, does not end with a newline). -/
theorem cleanup_idempotent_amended (s : String)
    (h1 : ∀ l ∈ cleanupLinesCh s.data, pyRstripSet isSpinner l = l)
    (h2 : cleanupLinesCh s.data = [[]] ∨
      (cleanupLinesCh s.data).getLast? ≠ some []) :
    _cleanup_stdout (_cleanup_stdout s) = _cleanup_stdout s := by
  rcases h2 with h2 | h2
  · show _cleanup_stdout (String.mk (joinNl (cleanupLinesCh s.data))) =
      String.mk (joinNl (cleanupLinesCh s.data))
    rw [h2]
    rfl
  · have hfix := cleanup_of_fixed (cleanupLinesCh s.data)
      (cleanupLines_break_free s.data) h1 (cleanupLines_ws_fixed s.data)
      (cleanupLines_dedup_fixed s.data) h2
    show _cleanup_stdout (String.mk (joinNl (cleanupLinesCh s.data))) = _
    unfold _cleanup_stdout
    rw [show (String.mk (joinNl (cleanupLinesCh s.data))).data =
      joinNl (cleanupLinesCh s.data) from rfl, hfix]

theorem cleanup_idempotent_amended_witness :
    (∀ l ∈ cleanupLinesCh "x \rx".data, pyRstripSet isSpinner l = l) ∧
    (cleanupLinesCh "x \rx".data = [[]] ∨
      (cleanupLinesCh "x \rx".data).getLast? ≠ some []) ∧
    _cleanup_stdout (_cleanup_stdout "x \rx") = _cleanup_stdout "x \rx" :=
  ⟨by decide, by decide,
   cleanup_idempotent_amended "x \rx" (by decide) (by decide)⟩

lemma splitOnNl_ne_nil (cs : List Char) : splitOnNl cs ≠ [] := by
  cases cs with
  | nil => simp [splitOnNl]
  | cons c rest =>
    simp only [splitOnNl]
    split_ifs with h
    · simp
    · split <;> simp

lemma joinNl_cons_cons (c : Char) (l : List Char) (ls : List (List Char)) :
    joinNl ((c :: l) :: ls) = c :: joinNl (l :: ls) := by
  cases ls with
  | nil => rfl
  | cons l2 ls2 => rfl

lemma joinNl_splitOnNl (cs : List Char) : joinNl (splitOnNl cs) = cs := by
  induction cs with
  | nil => rfl
  | cons c rest ih =>
    simp only [splitOnNl]
    split_ifs with h
    · rw [joinNl_cons [] (splitOnNl rest) (splitOnNl_ne_nil rest), ih, h]
      simp
    · rcases he : splitOnNl rest with _ | ⟨l, ls⟩
      · exact absurd he (splitOnNl_ne_nil rest)
      · rw [he] at ih
        simp only [he]
        rw [joinNl_cons_cons, ih]


lemma splitOnNl_cons_eq (c : Char) (rest : List Char) {l : List Char}
    {ls : List (List Char)} (he : splitOnNl rest = l :: ls) :
    splitOnNl (c :: rest) =
      if c = '\n' then [] :: l :: ls else (c :: l) :: ls := by
  simp only [splitOnNl, he]

lemma getLast?_splitOnNl (cs : List Char) (hne : cs ≠ [])
    (hl : cs.getLast? ≠ some '\n') : (splitOnNl cs).getLast? ≠ some [] := by
  induction cs with
  | nil => exact absurd rfl hne
  | cons c rest ih =>
    cases rest with
    | nil =>
      have hc : c ≠ '\n' := by
        intro h
        exact hl (by simp [h])
      simp [splitOnNl, hc]
    | cons d rest' =>
      have hl' : (d :: rest').getLast? ≠ some '\n' := by
        rwa [List.getLast?_cons_cons] at hl
      have ihr := ih (by simp) hl'
      obtain ⟨l, ls, he⟩ : ∃ l ls, splitOnNl (d :: rest') = l :: ls :=
        List.exists_cons_of_ne_nil (splitOnNl_ne_nil _)
      rw [splitOnNl_cons_eq c (d :: rest') he]
      rw [he] at ihr
      split_ifs with h
      · rw [List.getLast?_cons_cons]
        exact ihr
      · cases ls with
        | nil => simp
        | cons l2 ls2 =>
          rw [List.getLast?_cons_cons]
          rw [List.getLast?_cons_cons] at ihr
          exact ihr

lemma mem_splitOnNl {c : Char} {l cs : List Char} (hl : l ∈ splitOnNl cs)
    (hc : c ∈ l) : c ∈ cs ∧ c ≠ '\n' := by
  induction cs generalizing l with
  | nil =>
    simp only [splitOnNl, List.mem_singleton] at hl
    subst hl
    simp at hc
  | cons d rest ih =>
    obtain ⟨l0, ls, he⟩ : ∃ l0 ls, splitOnNl rest = l0 :: ls :=
      List.exists_cons_of_ne_nil (splitOnNl_ne_nil _)
    rw [splitOnNl_cons_eq d rest he] at hl
    split_ifs at hl with h
    · rcases List.mem_cons.mp hl with h' | h'
      · subst h'
        simp at hc
      · rw [← he] at h'
        have := ih h' hc
        exact ⟨List.mem_cons_of_mem d this.1, this.2⟩
    · rcases List.mem_cons.mp hl with h' | h'
      · subst h'
        rcases List.mem_cons.mp hc with h'' | h''
        · subst h''
          exact ⟨List.mem_cons_self c rest, h⟩
        · have hm : l0 ∈ splitOnNl rest := by
            rw [he]
            exact List.mem_cons_self l0 ls
          have := ih hm h''
          exact ⟨List.mem_cons_of_mem d this.1, this.2⟩
      · have hm : l ∈ splitOnNl rest := by
          rw [he]
          exact List.mem_cons_of_mem l0 h'
        have := ih hm hc
        exact ⟨List.mem_cons_of_mem d this.1, this.2⟩

/-- C6 corrected: on an input whose only line-break characters are
newlines (in particular, zero carriage returns), which does not end in a
newline, in which no line ends with a spinner glyph once its trailing
whitespace is removed, and in which no two consecutive lines are equal
after trailing-whitespace trimming, the normalizer returns the input with
only trailing whitespace trimmed from each line. -/
theorem cleanup_trim_amended (s : String)
    (hb : ∀ c ∈ s.data, isLineBreak c = true → c = '\n')
    (hlast : s.data.getLast? ≠ some '\n')
    (hsp : ∀ l ∈ (splitOnNl s.data).map (pyRstripSet pyIsSpace),
      pyRstripSet isSpinner l = l)
    (hdd : dedupConsec ((splitOnNl s.data).map (pyRstripSet pyIsSpace)) =
      (splitOnNl s.data).map (pyRstripSet pyIsSpace)) :
    _cleanup_stdout s = trimTrailingPerLine s := by
  by_cases hs : s.data = []
  · unfold _cleanup_stdout trimTrailingPerLine
    rw [hs]
    rfl
  · have hbf : ∀ l ∈ splitOnNl s.data, ∀ c ∈ l, isLineBreak c = false := by
      intro l hl c hc
      have hm := mem_splitOnNl hl hc
      cases hbc : isLineBreak c with
      | false => rfl
      | true => exact absurd (hb c hm.1 hbc) hm.2
    have hsplit : pySplitLines s.data = splitOnNl s.data := by
      unfold pySplitLines
      have hnr : '\r' ∉ s.data := by
        intro hr
        have := hb '\r' hr (by decide)
        exact absurd this (by decide)
      rw [normCRLF_of_no_cr _ hnr]
      conv_lhs => rw [← joinNl_splitOnNl s.data]
      exact splitLinesGo_joinNl _ hbf (getLast?_splitOnNl _ hs hlast)
    unfold _cleanup_stdout trimTrailingPerLine cleanupLinesCh
    rw [hsplit]
    have hmap : ((splitOnNl s.data).map (pyRstripSet isSpinner)).map
        (pyRstripSet pyIsSpace) =
        (splitOnNl s.data).map (pyRstripSet pyIsSpace) := by
      rw [List.map_map]
      apply List.map_congr_left
      intro l hlmem
      show pyRstripSet pyIsSpace (pyRstripSet isSpinner l) =
        pyRstripSet pyIsSpace l
      apply rstrip_swap
      exact hsp (pyRstripSet pyIsSpace l) (List.mem_map_of_mem _ hlmem)
    rw [hmap, hdd]

theorem cleanup_trim_amended_witness :
    (∀ c ∈ "hello  \nworld".data, isLineBreak c = true → c = '\n') ∧
    ("hello  \nworld".data.getLast? ≠ some '\n') ∧
    (∀ l ∈ (splitOnNl "hello  \nworld".data).map (pyRstripSet pyIsSpace),
      pyRstripSet isSpinner l = l) ∧
    (dedupConsec ((splitOnNl "hello  \nworld".data).map
        (pyRstripSet pyIsSpace)) =
      (splitOnNl "hello  \nworld".data).map (pyRstripSet pyIsSpace)) ∧
    _cleanup_stdout "hello  \nworld" = trimTrailingPerLine "hello  \nworld" :=
  ⟨by decide, by decide, by decide, by decide,
   cleanup_trim_amended "hello  \nworld" (by decide) (by decide) (by decide)
     (by decide)⟩
